import Mathlib

/-!
Verification development for the ESHET python client engine
(`eshet/messages.py`, `eshet/protocol.py`, `eshet/client.py`, `eshet/utils.py`).

Bytes are modelled as `List Nat` (a python `bytes` object holds values
0..255; the definitions below read and compare byte values exactly as the
source does).  Python strings (paths) are modelled as lists of code points.
-/

namespace Eshet

/-- Model of a msgpack payload value (`Msgpack` in `types.py`).  The msgpack
serialization itself is an external library (not part of this repository);
we model the positive-fixint fragment of the real msgpack wire format: a
value `0 <= v <= 127` is serialized as the single byte `v`.  All payload
fields of the codec are handled uniformly through `packMP` / `loadsAll`, so
the behaviour of the codec on its own fields does not depend on the richness
of this fragment. -/
def MP : Type := Fin 128
deriving DecidableEq, Repr

/-- `msgpack.packb(v)` for a positive-fixint value: the byte itself. -/
def packMP (v : MP) : List Nat := [v.val]

/-- `msgpack.loads(b)`: parses exactly one value and raises (`none`) on
truncated input or on trailing bytes (msgpack `ExtraData`), as used by
`unpack_msg.read_pack` which always passes the whole remainder. -/
def loadsAll (b : List Nat) : Option MP :=
  match b with
  | [x] => if h : x < 128 then some ⟨x, h⟩ else none
  | _ => none

/-- `ResultType`-tagged result tuple from `types.py`: `(ResultType.ok, v)`
or `(ResultType.error, v)`. -/
inductive PResult where
  | ok (v : MP)
  | error (v : MP)
deriving DecidableEq, Repr

/-- `StateValue` from `types.py`: `(StateValueType.known, v)` or the bare
`StateValueType.unknown`. -/
inductive StateValue where
  | known (v : MP)
  | unknown
deriving DecidableEq, Repr

/-- The message tuples of `messages.py` (`ClientMessage ∪ ServerMessage`),
one constructor per distinct tuple shape matched by `pack_msg`.  Client and
server `hello` / `hello_id` / `state_changed` shapes are distinct tuples in
the source (different arities) and so are distinct constructors here. -/
inductive Message where
  | hello_client (version : Nat) (timeout : Nat)
  | hello_id_client (version : Nat) (timeout : Nat) (client_id : MP)
  | hello_server
  | hello_id_server (client_id : MP)
  | reply (id : Nat) (r : PResult)
  | reply_state (id : Nat) (v : StateValue)
  | ping (id : Nat)
  | action_register (id : Nat) (path : List Nat)
  | action_call (id : Nat) (path : List Nat) (args : MP)
  | prop_register (id : Nat) (path : List Nat)
  | prop_get (id : Nat) (path : List Nat)
  | prop_set (id : Nat) (path : List Nat) (value : MP)
  | get (id : Nat) (path : List Nat)
  | set (id : Nat) (path : List Nat) (value : MP)
  | event_register (id : Nat) (path : List Nat)
  | event_emit (id : Nat) (path : List Nat) (value : MP)
  | event_listen (id : Nat) (path : List Nat)
  | event_notify (path : List Nat) (value : MP)
  | state_register (id : Nat) (path : List Nat)
  | state_changed_id (id : Nat) (path : List Nat) (value : MP)
  | state_unknown_id (id : Nat) (path : List Nat)
  | state_observe (id : Nat) (path : List Nat)
  | state_changed_push (path : List Nat) (v : StateValue)
deriving DecidableEq, Repr

/-- `pack_path` (`messages.py:79`): `path.encode("ascii") + b"\0"`.
`str.encode("ascii")` fails (`UnicodeEncodeError`, modelled as `none`)
exactly when some code point is ≥ 128; NUL (code point 0) is ASCII and is
encoded like any other byte. -/
def pack_path (path : List Nat) : Option (List Nat) :=
  if path.all (· < 128) then some (path ++ [0]) else none

/-- `struct.pack(">BH", op, id)`: raises (`none`) unless `id < 2^16`. -/
def packBH (op : Nat) (id : Nat) : Option (List Nat) :=
  if id < 65536 then some [op, id / 256, id % 256] else none

/-- `pack_msg` (`messages.py:83`): one opcode byte, big-endian numeric
fields, NUL-terminated ASCII path, then the msgpack payload (always last).
`none` models a raised exception (struct range error or encode error). -/
def pack_msg : Message → Option (List Nat)
  | .hello_client v t =>
      if v < 256 ∧ t < 65536 then some [0x01, v, t / 256, t % 256] else none
  | .hello_id_client v t cid =>
      if v < 256 ∧ t < 65536 then some ([0x02, v, t / 256, t % 256] ++ packMP cid)
      else none
  | .hello_server => some [0x03]
  | .hello_id_server cid => some ([0x04] ++ packMP cid)
  | .reply id (.ok v) => do pure ((← packBH 0x05 id) ++ packMP v)
  | .reply id (.error v) => do pure ((← packBH 0x06 id) ++ packMP v)
  | .reply_state id (.known v) => do pure ((← packBH 0x07 id) ++ packMP v)
  | .reply_state id .unknown => packBH 0x08 id
  | .ping id => packBH 0x09 id
  | .action_register id p => do pure ((← packBH 0x10 id) ++ (← pack_path p))
  | .action_call id p a => do pure ((← packBH 0x11 id) ++ (← pack_path p) ++ packMP a)
  | .prop_register id p => do pure ((← packBH 0x20 id) ++ (← pack_path p))
  | .prop_get id p => do pure ((← packBH 0x21 id) ++ (← pack_path p))
  | .prop_set id p v => do pure ((← packBH 0x22 id) ++ (← pack_path p) ++ packMP v)
  | .get id p => do pure ((← packBH 0x23 id) ++ (← pack_path p))
  | .set id p v => do pure ((← packBH 0x24 id) ++ (← pack_path p) ++ packMP v)
  | .event_register id p => do pure ((← packBH 0x30 id) ++ (← pack_path p))
  | .event_emit id p v => do pure ((← packBH 0x31 id) ++ (← pack_path p) ++ packMP v)
  | .event_listen id p => do pure ((← packBH 0x32 id) ++ (← pack_path p))
  | .event_notify p v => do pure ([0x33] ++ (← pack_path p) ++ packMP v)
  | .state_register id p => do pure ((← packBH 0x40 id) ++ (← pack_path p))
  | .state_changed_id id p v => do pure ((← packBH 0x41 id) ++ (← pack_path p) ++ packMP v)
  | .state_unknown_id id p => do pure ((← packBH 0x42 id) ++ (← pack_path p))
  | .state_observe id p => do pure ((← packBH 0x43 id) ++ (← pack_path p))
  | .state_changed_push p (.known v) => do pure ([0x44] ++ (← pack_path p) ++ packMP v)
  | .state_changed_push p .unknown => do pure ([0x45] ++ (← pack_path p))

/-- First index holding a `0` byte, i.e. `bytes.index(0, pos)` relative to
the remaining slice (`none` models the raised `ValueError`). -/
def indexOfZero : List Nat → Option Nat
  | [] => none
  | c :: rest => if c = 0 then some 0 else (indexOfZero rest).map (· + 1)

/-- `unpack_msg.read_path` (`messages.py:158`): find the NUL terminator,
ASCII-decode the bytes before it (fails on a byte ≥ 128), and continue
after the terminator. -/
def read_path (b : List Nat) : Option (List Nat × List Nat) := do
  let i ← indexOfZero b
  let p := b.take i
  if p.all (· < 128) then pure (p, b.drop (i + 1)) else none

/-- `struct.unpack_from(">H", ...)`: two big-endian bytes, rest untouched. -/
def readU16 : List Nat → Option (Nat × List Nat)
  | a :: b :: rest => some (a * 256 + b, rest)
  | _ => none

/-- `unpack_msg` (`messages.py:149`): dispatch on the opcode byte; `none`
models a raised exception (unknown opcode, truncated fields, missing path
terminator, decode errors).  As in the source, trailing bytes after the
last field of a payload-free message are ignored. -/
def unpack_msg (b : List Nat) : Option Message :=
  match b with
  | [] => none
  | op :: rest =>
    match op with
    | 0x01 =>
      match rest with
      | v :: a :: b2 :: _ => some (.hello_client v (a * 256 + b2))
      | _ => none
    | 0x02 =>
      match rest with
      | v :: a :: b2 :: r => do pure (.hello_id_client v (a * 256 + b2) (← loadsAll r))
      | _ => none
    | 0x03 => some .hello_server
    | 0x04 => do pure (.hello_id_server (← loadsAll rest))
    | 0x05 => do
      let (id, r) ← readU16 rest
      pure (.reply id (.ok (← loadsAll r)))
    | 0x06 => do
      let (id, r) ← readU16 rest
      pure (.reply id (.error (← loadsAll r)))
    | 0x07 => do
      let (id, r) ← readU16 rest
      pure (.reply_state id (.known (← loadsAll r)))
    | 0x08 => do
      let (id, _r) ← readU16 rest
      pure (.reply_state id .unknown)
    | 0x09 => do
      let (id, _r) ← readU16 rest
      pure (.ping id)
    | 0x10 => do
      let (id, r) ← readU16 rest
      let (p, _r2) ← read_path r
      pure (.action_register id p)
    | 0x11 => do
      let (id, r) ← readU16 rest
      let (p, r2) ← read_path r
      pure (.action_call id p (← loadsAll r2))
    | 0x20 => do
      let (id, r) ← readU16 rest
      let (p, _r2) ← read_path r
      pure (.prop_register id p)
    | 0x21 => do
      let (id, r) ← readU16 rest
      let (p, _r2) ← read_path r
      pure (.prop_get id p)
    | 0x22 => do
      let (id, r) ← readU16 rest
      let (p, r2) ← read_path r
      pure (.prop_set id p (← loadsAll r2))
    | 0x23 => do
      let (id, r) ← readU16 rest
      let (p, _r2) ← read_path r
      pure (.get id p)
    | 0x24 => do
      let (id, r) ← readU16 rest
      let (p, r2) ← read_path r
      pure (.set id p (← loadsAll r2))
    | 0x30 => do
      let (id, r) ← readU16 rest
      let (p, _r2) ← read_path r
      pure (.event_register id p)
    | 0x31 => do
      let (id, r) ← readU16 rest
      let (p, r2) ← read_path r
      pure (.event_emit id p (← loadsAll r2))
    | 0x32 => do
      let (id, r) ← readU16 rest
      let (p, _r2) ← read_path r
      pure (.event_listen id p)
    | 0x33 => do
      let (p, r2) ← read_path rest
      pure (.event_notify p (← loadsAll r2))
    | 0x40 => do
      let (id, r) ← readU16 rest
      let (p, _r2) ← read_path r
      pure (.state_register id p)
    | 0x41 => do
      let (id, r) ← readU16 rest
      let (p, r2) ← read_path r
      pure (.state_changed_id id p (← loadsAll r2))
    | 0x42 => do
      let (id, r) ← readU16 rest
      let (p, _r2) ← read_path r
      pure (.state_unknown_id id p)
    | 0x43 => do
      let (id, r) ← readU16 rest
      let (p, _r2) ← read_path r
      pure (.state_observe id p)
    | 0x44 => do
      let (p, r2) ← read_path rest
      pure (.state_changed_push p (.known (← loadsAll r2)))
    | 0x45 => do
      let (p, _r2) ← read_path rest
      pure (.state_changed_push p .unknown)
    | _ => none

/-- A path whose encoding round-trips: ASCII only and NUL-free.  (The
encoder itself accepts a NUL; see `pack_path`.) -/
def pathOK (p : List Nat) : Bool := p.all (fun c => c < 128 && c ≠ 0)

/-- Field bounds under which `pack_msg` produces bytes that decode back to
the same message: numeric fields within their struct ranges and paths
ASCII and NUL-free. -/
def wellFormed : Message → Bool
  | .hello_client v t => decide (v < 256) && decide (t < 65536)
  | .hello_id_client v t _ => decide (v < 256) && decide (t < 65536)
  | .hello_server => true
  | .hello_id_server _ => true
  | .reply id _ => decide (id < 65536)
  | .reply_state id _ => decide (id < 65536)
  | .ping id => decide (id < 65536)
  | .action_register id p => decide (id < 65536) && pathOK p
  | .action_call id p _ => decide (id < 65536) && pathOK p
  | .prop_register id p => decide (id < 65536) && pathOK p
  | .prop_get id p => decide (id < 65536) && pathOK p
  | .prop_set id p _ => decide (id < 65536) && pathOK p
  | .get id p => decide (id < 65536) && pathOK p
  | .set id p _ => decide (id < 65536) && pathOK p
  | .event_register id p => decide (id < 65536) && pathOK p
  | .event_emit id p _ => decide (id < 65536) && pathOK p
  | .event_listen id p => decide (id < 65536) && pathOK p
  | .event_notify p _ => pathOK p
  | .state_register id p => decide (id < 65536) && pathOK p
  | .state_changed_id id p _ => decide (id < 65536) && pathOK p
  | .state_unknown_id id p => decide (id < 65536) && pathOK p
  | .state_observe id p => decide (id < 65536) && pathOK p
  | .state_changed_push p _ => pathOK p

lemma loadsAll_val (v : MP) : loadsAll [v.val] = some v := by
  unfold loadsAll
  simp [v.isLt]

lemma pathOK_all_lt (p : List Nat) (h : pathOK p = true) : p.all (· < 128) = true := by
  simp only [pathOK, List.all_eq_true, Bool.and_eq_true, decide_eq_true_eq] at h ⊢
  exact fun c hc => (h c hc).1

lemma pathOK_ne_zero (p : List Nat) (h : pathOK p = true) : ∀ c ∈ p, c ≠ 0 := by
  simp only [pathOK, List.all_eq_true, Bool.and_eq_true, decide_eq_true_eq] at h
  exact fun c hc => by simpa using (h c hc).2

lemma indexOfZero_append (p r : List Nat) (h : ∀ c ∈ p, c ≠ 0) :
    indexOfZero (p ++ 0 :: r) = some p.length := by
  induction p with
  | nil => simp [indexOfZero]
  | cons c t ih =>
    have hc : c ≠ 0 := h c (by simp)
    simp [indexOfZero, hc, ih (fun x hx => h x (by simp [hx]))]

lemma read_path_append (p r : List Nat) (h : pathOK p = true) :
    read_path (p ++ 0 :: r) = some (p, r) := by
  have hdrop : (p ++ 0 :: r).drop (p.length + 1) = r := by
    have he : p ++ 0 :: r = (p ++ [0]) ++ r := by simp
    have hl : (p ++ [0]).length = p.length + 1 := by simp
    rw [he, ← hl, List.drop_left]
  have htake : (p ++ 0 :: r).take p.length = p := List.take_left p (0 :: r)
  have hall : ∀ x ∈ p, x < 128 := by
    have := pathOK_all_lt p h
    simpa [List.all_eq_true] using this
  unfold read_path
  rw [indexOfZero_append p r (pathOK_ne_zero p h)]
  simp [htake, hdrop]
  exact hall

/-- C1 (counterexample): a message whose path contains a NUL byte is
producible by the codec (`pack_msg` succeeds) but does not survive the
round trip: the decoder stops the path at the first NUL. -/
theorem pack_msg_nul_path_breaks_roundtrip :
    pack_msg (.action_register 42 [97, 0, 98]) = some [16, 0, 42, 97, 0, 98, 0] ∧
    unpack_msg [16, 0, 42, 97, 0, 98, 0] = some (.action_register 42 [97]) ∧
    Message.action_register 42 [97] ≠ Message.action_register 42 [97, 0, 98] := by
  refine ⟨by decide, by decide, by decide⟩

/-- C1 (amended): for every message with in-range numeric fields and
ASCII, NUL-free paths, encoding succeeds and decoding the produced bytes
yields the original message. -/
theorem unpack_pack_msg_roundtrip (m : Message) (h : wellFormed m = true) :
    ∃ bs, pack_msg m = some bs ∧ unpack_msg bs = some m := by
  cases m with
  | hello_client v t =>
    simp only [wellFormed, Bool.and_eq_true, decide_eq_true_eq] at h
    refine ⟨[1, v, t / 256, t % 256], by simp [pack_msg, h.1, h.2], ?_⟩
    have harith : t / 256 * 256 + t % 256 = t := by omega
    simp [unpack_msg, harith]
  | hello_id_client v t cid =>
    simp only [wellFormed, Bool.and_eq_true, decide_eq_true_eq] at h
    refine ⟨[2, v, t / 256, t % 256, cid.val], by simp [pack_msg, packMP, h.1, h.2], ?_⟩
    have harith : t / 256 * 256 + t % 256 = t := by omega
    simp [unpack_msg, loadsAll_val, harith]
  | hello_server => exact ⟨[3], by simp [pack_msg], by simp [unpack_msg]⟩
  | hello_id_server cid =>
    exact ⟨[4, cid.val], by simp [pack_msg, packMP], by simp [unpack_msg, loadsAll_val]⟩
  | reply id r =>
    simp only [wellFormed, decide_eq_true_eq] at h
    have harith : id / 256 * 256 + id % 256 = id := by omega
    cases r with
    | ok v =>
      refine ⟨[5, id / 256, id % 256, v.val], ?_, ?_⟩
      · simp [pack_msg, packBH, packMP, h]
      · simp [unpack_msg, readU16, loadsAll_val, harith]
    | error v =>
      refine ⟨[6, id / 256, id % 256, v.val], ?_, ?_⟩
      · simp [pack_msg, packBH, packMP, h]
      · simp [unpack_msg, readU16, loadsAll_val, harith]
  | reply_state id v =>
    simp only [wellFormed, decide_eq_true_eq] at h
    have harith : id / 256 * 256 + id % 256 = id := by omega
    cases v with
    | known v =>
      refine ⟨[7, id / 256, id % 256, v.val], ?_, ?_⟩
      · simp [pack_msg, packBH, packMP, h]
      · simp [unpack_msg, readU16, loadsAll_val, harith]
    | unknown =>
      refine ⟨[8, id / 256, id % 256], by simp [pack_msg, packBH, h], ?_⟩
      simp [unpack_msg, readU16, harith]
  | ping id =>
    simp only [wellFormed, decide_eq_true_eq] at h
    have harith : id / 256 * 256 + id % 256 = id := by omega
    refine ⟨[9, id / 256, id % 256], by simp [pack_msg, packBH, h], ?_⟩
    simp [unpack_msg, readU16, harith]
  | action_register id p =>
    simp only [wellFormed, Bool.and_eq_true, decide_eq_true_eq] at h
    have harith : id / 256 * 256 + id % 256 = id := by omega
    refine ⟨[16, id / 256, id % 256] ++ p ++ [0], ?_, ?_⟩
    · simp [pack_msg, packBH, pack_path, h.1, pathOK_all_lt p h.2]
    · simp [unpack_msg, readU16, read_path_append p [] h.2, harith]
  | action_call id p a =>
    simp only [wellFormed, Bool.and_eq_true, decide_eq_true_eq] at h
    have harith : id / 256 * 256 + id % 256 = id := by omega
    refine ⟨[17, id / 256, id % 256] ++ p ++ [0] ++ [a.val], ?_, ?_⟩
    · simp [pack_msg, packBH, pack_path, packMP, h.1, pathOK_all_lt p h.2]
    · simp [unpack_msg, readU16, read_path_append p [a.val] h.2, loadsAll_val, harith]
  | prop_register id p =>
    simp only [wellFormed, Bool.and_eq_true, decide_eq_true_eq] at h
    have harith : id / 256 * 256 + id % 256 = id := by omega
    refine ⟨[32, id / 256, id % 256] ++ p ++ [0], ?_, ?_⟩
    · simp [pack_msg, packBH, pack_path, h.1, pathOK_all_lt p h.2]
    · simp [unpack_msg, readU16, read_path_append p [] h.2, harith]
  | prop_get id p =>
    simp only [wellFormed, Bool.and_eq_true, decide_eq_true_eq] at h
    have harith : id / 256 * 256 + id % 256 = id := by omega
    refine ⟨[33, id / 256, id % 256] ++ p ++ [0], ?_, ?_⟩
    · simp [pack_msg, packBH, pack_path, h.1, pathOK_all_lt p h.2]
    · simp [unpack_msg, readU16, read_path_append p [] h.2, harith]
  | prop_set id p v =>
    simp only [wellFormed, Bool.and_eq_true, decide_eq_true_eq] at h
    have harith : id / 256 * 256 + id % 256 = id := by omega
    refine ⟨[34, id / 256, id % 256] ++ p ++ [0] ++ [v.val], ?_, ?_⟩
    · simp [pack_msg, packBH, pack_path, packMP, h.1, pathOK_all_lt p h.2]
    · simp [unpack_msg, readU16, read_path_append p [v.val] h.2, loadsAll_val, harith]
  | get id p =>
    simp only [wellFormed, Bool.and_eq_true, decide_eq_true_eq] at h
    have harith : id / 256 * 256 + id % 256 = id := by omega
    refine ⟨[35, id / 256, id % 256] ++ p ++ [0], ?_, ?_⟩
    · simp [pack_msg, packBH, pack_path, h.1, pathOK_all_lt p h.2]
    · simp [unpack_msg, readU16, read_path_append p [] h.2, harith]
  | set id p v =>
    simp only [wellFormed, Bool.and_eq_true, decide_eq_true_eq] at h
    have harith : id / 256 * 256 + id % 256 = id := by omega
    refine ⟨[36, id / 256, id % 256] ++ p ++ [0] ++ [v.val], ?_, ?_⟩
    · simp [pack_msg, packBH, pack_path, packMP, h.1, pathOK_all_lt p h.2]
    · simp [unpack_msg, readU16, read_path_append p [v.val] h.2, loadsAll_val, harith]
  | event_register id p =>
    simp only [wellFormed, Bool.and_eq_true, decide_eq_true_eq] at h
    have harith : id / 256 * 256 + id % 256 = id := by omega
    refine ⟨[48, id / 256, id % 256] ++ p ++ [0], ?_, ?_⟩
    · simp [pack_msg, packBH, pack_path, h.1, pathOK_all_lt p h.2]
    · simp [unpack_msg, readU16, read_path_append p [] h.2, harith]
  | event_emit id p v =>
    simp only [wellFormed, Bool.and_eq_true, decide_eq_true_eq] at h
    have harith : id / 256 * 256 + id % 256 = id := by omega
    refine ⟨[49, id / 256, id % 256] ++ p ++ [0] ++ [v.val], ?_, ?_⟩
    · simp [pack_msg, packBH, pack_path, packMP, h.1, pathOK_all_lt p h.2]
    · simp [unpack_msg, readU16, read_path_append p [v.val] h.2, loadsAll_val, harith]
  | event_listen id p =>
    simp only [wellFormed, Bool.and_eq_true, decide_eq_true_eq] at h
    have harith : id / 256 * 256 + id % 256 = id := by omega
    refine ⟨[50, id / 256, id % 256] ++ p ++ [0], ?_, ?_⟩
    · simp [pack_msg, packBH, pack_path, h.1, pathOK_all_lt p h.2]
    · simp [unpack_msg, readU16, read_path_append p [] h.2, harith]
  | event_notify p v =>
    simp only [wellFormed] at h
    refine ⟨[51] ++ p ++ [0] ++ [v.val], ?_, ?_⟩
    · simp [pack_msg, pack_path, packMP, pathOK_all_lt p h]
    · simp [unpack_msg, read_path_append p [v.val] h, loadsAll_val]
  | state_register id p =>
    simp only [wellFormed, Bool.and_eq_true, decide_eq_true_eq] at h
    have harith : id / 256 * 256 + id % 256 = id := by omega
    refine ⟨[64, id / 256, id % 256] ++ p ++ [0], ?_, ?_⟩
    · simp [pack_msg, packBH, pack_path, h.1, pathOK_all_lt p h.2]
    · simp [unpack_msg, readU16, read_path_append p [] h.2, harith]
  | state_changed_id id p v =>
    simp only [wellFormed, Bool.and_eq_true, decide_eq_true_eq] at h
    have harith : id / 256 * 256 + id % 256 = id := by omega
    refine ⟨[65, id / 256, id % 256] ++ p ++ [0] ++ [v.val], ?_, ?_⟩
    · simp [pack_msg, packBH, pack_path, packMP, h.1, pathOK_all_lt p h.2]
    · simp [unpack_msg, readU16, read_path_append p [v.val] h.2, loadsAll_val, harith]
  | state_unknown_id id p =>
    simp only [wellFormed, Bool.and_eq_true, decide_eq_true_eq] at h
    have harith : id / 256 * 256 + id % 256 = id := by omega
    refine ⟨[66, id / 256, id % 256] ++ p ++ [0], ?_, ?_⟩
    · simp [pack_msg, packBH, pack_path, h.1, pathOK_all_lt p h.2]
    · simp [unpack_msg, readU16, read_path_append p [] h.2, harith]
  | state_observe id p =>
    simp only [wellFormed, Bool.and_eq_true, decide_eq_true_eq] at h
    have harith : id / 256 * 256 + id % 256 = id := by omega
    refine ⟨[67, id / 256, id % 256] ++ p ++ [0], ?_, ?_⟩
    · simp [pack_msg, packBH, pack_path, h.1, pathOK_all_lt p h.2]
    · simp [unpack_msg, readU16, read_path_append p [] h.2, harith]
  | state_changed_push p v =>
    simp only [wellFormed] at h
    cases v with
    | known v =>
      refine ⟨[68] ++ p ++ [0] ++ [v.val], ?_, ?_⟩
      · simp [pack_msg, pack_path, packMP, pathOK_all_lt p h]
      · simp [unpack_msg, read_path_append p [v.val] h, loadsAll_val]
    | unknown =>
      refine ⟨[69] ++ p ++ [0], ?_, ?_⟩
      · simp [pack_msg, pack_path, pathOK_all_lt p h]
      · simp [unpack_msg, read_path_append p [] h]

theorem unpack_pack_msg_roundtrip_witness :
    wellFormed (.state_changed_id 42 [47, 112] ⟨5, by decide⟩) = true ∧
    ∃ bs, pack_msg (.state_changed_id 42 [47, 112] ⟨5, by decide⟩) = some bs ∧
      unpack_msg bs = some (.state_changed_id 42 [47, 112] ⟨5, by decide⟩) :=
  ⟨by decide, unpack_pack_msg_roundtrip (.state_changed_id 42 [47, 112] ⟨5, by decide⟩) (by decide)⟩

/-- C5 (counterexample): encoding a message whose path contains a NUL byte
does not fail: `str.encode("ascii")` accepts NUL, so bytes are produced. -/
theorem pack_msg_accepts_nul_path :
    pack_msg (.get 1 [0]) = some [35, 0, 1, 0, 0] ∧ (0 : Nat) ∈ [(0 : Nat)] := by
  refine ⟨by decide, by decide⟩

/-- C5 (amended): `pack_path` fails exactly on non-ASCII code points: an
all-ASCII path (NUL included) is encoded as its bytes plus one NUL
terminator, and any path with a code point ≥ 128 fails with an encoding
error producing no bytes. -/
theorem pack_path_spec (p : List Nat) :
    ((∀ c ∈ p, c < 128) → pack_path p = some (p ++ [0])) ∧
    ((∃ c ∈ p, 128 ≤ c) → pack_path p = none) := by
  constructor
  · intro hall
    have hb : p.all (· < 128) = true := by simpa [List.all_eq_true] using hall
    simp [pack_path, hb]
  · rintro ⟨c, hc, h128⟩
    have : ¬(p.all (· < 128) = true) := by
      simp only [List.all_eq_true, decide_eq_true_eq]
      intro hall
      exact absurd (hall c hc) (by omega)
    simp [pack_path, this]

theorem pack_path_spec_witness :
    pack_path [104, 105] = some [104, 105, 0] ∧ pack_path [200] = none :=
  ⟨(pack_path_spec [104, 105]).1 (by decide), (pack_path_spec [200]).2 ⟨200, by decide, by decide⟩⟩

/-! ## Byte-stream reassembly (`Proto.data_received`, `protocol.py:100`) -/

/-- The frame-extraction loop of `Proto.data_received`: while a full
3-byte header (`>BH`: sync byte, big-endian length) is available, check
the sync word (`0x47`), wait for the full frame body, decode it with
`unpack_msg` and hand the message on.  The returned flag records a raised
`ValueError` (bad sync word or undecodable frame), which is fatal for the
connection; the returned list is the leftover buffer. -/
def extract : List Nat → List Message × List Nat × Bool
  | sync :: l1 :: l2 :: rest =>
    if sync = 0x47 then
      if l1 * 256 + l2 ≤ rest.length then
        match unpack_msg (rest.take (l1 * 256 + l2)) with
        | none => ([], sync :: l1 :: l2 :: rest, true)
        | some m =>
          let r := extract (rest.drop (l1 * 256 + l2))
          (m :: r.1, r.2.1, r.2.2)
      else ([], sync :: l1 :: l2 :: rest, false)
    else ([], sync :: l1 :: l2 :: rest, true)
  | buf => ([], buf, false)
termination_by b => b.length
decreasing_by simp [List.length_drop]; omega

/-- The reassembly state of one connection: messages delivered so far, the
pending byte buffer, and whether a fatal decode error has occurred (after
which the connection is dead and receives nothing further). -/
structure ConnState where
  msgs : List Message
  buffer : List Nat
  fatal : Bool
deriving DecidableEq, Repr

def initConn : ConnState := ⟨[], [], false⟩

/-- One call of `data_received`: append the data to the buffer and extract
every complete frame. -/
def feed (st : ConnState) (data : List Nat) : ConnState :=
  if st.fatal then st
  else
    let r := extract (st.buffer ++ data)
    ⟨st.msgs ++ r.1, r.2.1, r.2.2⟩

/-- Feeding a sequence of chunks one call at a time. -/
def feedAll (st : ConnState) : List (List Nat) → ConnState
  | [] => st
  | c :: cs => feedAll (feed st c) cs


lemma extract_append (buf more : List Nat) :
    ((extract buf).2.2 = true →
       (extract (buf ++ more)).1 = (extract buf).1 ∧ (extract (buf ++ more)).2.2 = true) ∧
    ((extract buf).2.2 = false →
       extract (buf ++ more) =
         ((extract buf).1 ++ (extract ((extract buf).2.1 ++ more)).1,
          (extract ((extract buf).2.1 ++ more)).2.1,
          (extract ((extract buf).2.1 ++ more)).2.2)) := by
  induction buf using extract.induct with
  | case1 a b2 tail hlen hnone =>
    have hlen2 : a * 256 + b2 ≤ tail.length + more.length := by omega
    have e1 : extract (71 :: a :: b2 :: tail) = ([], 71 :: a :: b2 :: tail, true) := by
      simp [extract, hlen, hnone]
    have e2 : extract (71 :: a :: b2 :: (tail ++ more)) =
        ([], 71 :: a :: b2 :: (tail ++ more), true) := by
      simp [extract, hlen2, List.take_append_of_le_length hlen, hnone]
    constructor
    · intro _
      simp [List.cons_append, e1, e2]
    · intro hf
      rw [e1] at hf
      simp at hf
  | case2 a b2 tail hlen m hm ih =>
    have hlen2 : a * 256 + b2 ≤ tail.length + more.length := by omega
    have htake : (tail ++ more).take (a * 256 + b2) = tail.take (a * 256 + b2) :=
      List.take_append_of_le_length hlen
    have hdrop : (tail ++ more).drop (a * 256 + b2) = tail.drop (a * 256 + b2) ++ more :=
      List.drop_append_of_le_length hlen
    have e1 : extract (71 :: a :: b2 :: tail) =
        (m :: (extract (tail.drop (a * 256 + b2))).1,
         (extract (tail.drop (a * 256 + b2))).2.1,
         (extract (tail.drop (a * 256 + b2))).2.2) := by
      simp [extract, hlen, hm]
    have e2 : extract (71 :: a :: b2 :: (tail ++ more)) =
        (m :: (extract (tail.drop (a * 256 + b2) ++ more)).1,
         (extract (tail.drop (a * 256 + b2) ++ more)).2.1,
         (extract (tail.drop (a * 256 + b2) ++ more)).2.2) := by
      simp only [extract, if_pos rfl, htake, hdrop, hm]
      rw [if_pos (show a * 256 + b2 ≤ (tail ++ more).length by
        simp only [List.length_append]; omega)]
      simp
    constructor
    · intro hf
      rw [e1] at hf
      simp only at hf
      obtain ⟨hA, hB⟩ := ih.1 hf
      simp [List.cons_append, e1, e2, hA, hB]
    · intro hf
      rw [e1] at hf
      simp only at hf
      have hrec := ih.2 hf
      simp [List.cons_append, e1, e2, hrec]
  | case3 a b2 tail hlen =>
    have e1 : extract (71 :: a :: b2 :: tail) = ([], 71 :: a :: b2 :: tail, false) := by
      simp [extract, hlen]
    constructor
    · intro hf
      rw [e1] at hf
      simp at hf
    · intro _
      simp [List.cons_append, e1]
  | case4 v a b2 tail hv =>
    have e1 : extract (v :: a :: b2 :: tail) = ([], v :: a :: b2 :: tail, true) := by
      simp [extract, hv]
    have e2 : extract (v :: a :: b2 :: (tail ++ more)) =
        ([], v :: a :: b2 :: (tail ++ more), true) := by
      simp [extract, hv]
    constructor
    · intro _
      simp [List.cons_append, e1, e2]
    · intro hf
      rw [e1] at hf
      simp at hf
  | case5 l hne =>
    match l, hne with
    | [], _ =>
      have e1 : extract ([] : List Nat) = ([], [], false) := by simp [extract]
      constructor
      · intro hf
        rw [e1] at hf
        simp at hf
      · intro _
        simp [e1]
    | [a], _ =>
      have e1 : extract [a] = ([], [a], false) := by simp [extract]
      constructor
      · intro hf
        rw [e1] at hf
        simp at hf
      · intro _
        simp [List.cons_append, e1]
    | [a, b], _ =>
      have e1 : extract [a, b] = ([], [a, b], false) := by simp [extract]
      constructor
      · intro hf
        rw [e1] at hf
        simp at hf
      · intro _
        simp [List.cons_append, e1]
    | a :: b :: c :: t, hne => exact absurd rfl (hne a b c t)


lemma extract_leftover_quiescent (buf : List Nat) (h : (extract buf).2.2 = false) :
    extract ((extract buf).2.1) = ([], (extract buf).2.1, false) := by
  induction buf using extract.induct with
  | case1 a b2 tail hlen hnone =>
    have e1 : extract (71 :: a :: b2 :: tail) = ([], 71 :: a :: b2 :: tail, true) := by
      simp [extract, hlen, hnone]
    rw [e1] at h
    simp at h
  | case2 a b2 tail hlen m hm ih =>
    have e1 : extract (71 :: a :: b2 :: tail) =
        (m :: (extract (List.drop (a * 256 + b2) tail)).1,
         (extract (List.drop (a * 256 + b2) tail)).2.1,
         (extract (List.drop (a * 256 + b2) tail)).2.2) := by
      simp [extract, hlen, hm]
    rw [e1] at h ⊢
    simp only at h ⊢
    exact ih h
  | case3 a b2 tail hlen =>
    have e1 : extract (71 :: a :: b2 :: tail) = ([], 71 :: a :: b2 :: tail, false) := by
      simp [extract, hlen]
    rw [e1]
    simp only
    exact e1
  | case4 v a b2 tail hv =>
    have e1 : extract (v :: a :: b2 :: tail) = ([], v :: a :: b2 :: tail, true) := by
      simp [extract, hv]
    rw [e1] at h
    simp at h
  | case5 l hne =>
    match l, hne with
    | [], _ =>
      have e1 : extract ([] : List Nat) = ([], [], false) := by simp [extract]
      rw [e1]
      simp only
      exact e1
    | [a], _ =>
      have e1 : extract [a] = ([], [a], false) := by simp [extract]
      rw [e1]
      simp only
      exact e1
    | [a, b], _ =>
      have e1 : extract [a, b] = ([], [a, b], false) := by simp [extract]
      rw [e1]
      simp only
      exact e1
    | a :: b :: c :: t, hne => exact absurd rfl (hne a b c t)

lemma feed_fatal (st : ConnState) (d : List Nat) (hf : st.fatal = true) : feed st d = st := by
  simp [feed, hf]

lemma feed_not_fatal (st : ConnState) (d : List Nat) (hf : st.fatal = false) :
    feed st d = ⟨st.msgs ++ (extract (st.buffer ++ d)).1,
                 (extract (st.buffer ++ d)).2.1, (extract (st.buffer ++ d)).2.2⟩ := by
  simp [feed, hf]

lemma feed_append (st : ConnState) (d1 d2 : List Nat) :
    (feed st (d1 ++ d2)).msgs = (feed (feed st d1) d2).msgs ∧
    (feed st (d1 ++ d2)).fatal = (feed (feed st d1) d2).fatal ∧
    ((feed st (d1 ++ d2)).fatal = false →
      (feed st (d1 ++ d2)).buffer = (feed (feed st d1) d2).buffer) := by
  cases hfst : st.fatal with
  | true =>
    rw [feed_fatal st (d1 ++ d2) hfst, feed_fatal st d1 hfst, feed_fatal st d2 hfst]
    exact ⟨rfl, rfl, fun _ => rfl⟩
  | false =>
    rw [feed_not_fatal st (d1 ++ d2) hfst, feed_not_fatal st d1 hfst]
    cases hfat : (extract (st.buffer ++ d1)).2.2 with
    | true =>
      have hA := (extract_append (st.buffer ++ d1) d2).1 hfat
      rw [List.append_assoc] at hA
      rw [feed_fatal ⟨st.msgs ++ (extract (st.buffer ++ d1)).1,
            (extract (st.buffer ++ d1)).2.1, true⟩ d2 rfl]
      refine ⟨?_, ?_, ?_⟩
      · show st.msgs ++ (extract (st.buffer ++ (d1 ++ d2))).1 =
          st.msgs ++ (extract (st.buffer ++ d1)).1
        rw [hA.1]
      · show (extract (st.buffer ++ (d1 ++ d2))).2.2 = true
        exact hA.2
      · intro hc
        have hc2 : (extract (st.buffer ++ (d1 ++ d2))).2.2 = false := hc
        rw [hA.2] at hc2
        cases hc2
    | false =>
      have hB := (extract_append (st.buffer ++ d1) d2).2 hfat
      rw [List.append_assoc] at hB
      rw [feed_not_fatal ⟨st.msgs ++ (extract (st.buffer ++ d1)).1,
            (extract (st.buffer ++ d1)).2.1, false⟩ d2 rfl]
      refine ⟨?_, ?_, fun _ => ?_⟩
      · show st.msgs ++ (extract (st.buffer ++ (d1 ++ d2))).1 =
          (st.msgs ++ (extract (st.buffer ++ d1)).1) ++
            (extract ((extract (st.buffer ++ d1)).2.1 ++ d2)).1
        rw [hB, List.append_assoc]
      · show (extract (st.buffer ++ (d1 ++ d2))).2.2 =
          (extract ((extract (st.buffer ++ d1)).2.1 ++ d2)).2.2
        rw [hB]
      · show (extract (st.buffer ++ (d1 ++ d2))).2.1 =
          (extract ((extract (st.buffer ++ d1)).2.1 ++ d2)).2.1
        rw [hB]

lemma feedAll_join (chunks : List (List Nat)) : ∀ st : ConnState,
    (st.fatal = true ∨ extract st.buffer = ([], st.buffer, false)) →
    (feedAll st chunks).msgs = (feed st chunks.flatten).msgs ∧
    (feedAll st chunks).fatal = (feed st chunks.flatten).fatal ∧
    ((feedAll st chunks).fatal = false →
      (feedAll st chunks).buffer = (feed st chunks.flatten).buffer) := by
  induction chunks with
  | nil =>
    intro st hq
    cases hfst : st.fatal with
    | true =>
      rw [feed_fatal st _ hfst]
      exact ⟨rfl, rfl, fun _ => rfl⟩
    | false =>
      rcases hq with hf | hqu
      · rw [hfst] at hf; cases hf
      · rw [feed_not_fatal st _ hfst]
        have hb : st.buffer ++ List.flatten [] = st.buffer := by simp
        refine ⟨?_, ?_, fun _ => ?_⟩
        · show st.msgs = st.msgs ++ (extract (st.buffer ++ List.flatten [])).1
          rw [hb, hqu]
          simp
        · show st.fatal = (extract (st.buffer ++ List.flatten [])).2.2
          rw [hb, hqu, hfst]
        · show st.buffer = (extract (st.buffer ++ List.flatten [])).2.1
          rw [hb, hqu]
  | cons c cs ih =>
    intro st hq
    have hq2 : (feed st c).fatal = true ∨
        extract (feed st c).buffer = ([], (feed st c).buffer, false) := by
      cases hfst : st.fatal with
      | true =>
        rw [feed_fatal st c hfst]
        exact Or.inl hfst
      | false =>
        rw [feed_not_fatal st c hfst]
        cases hfat : (extract (st.buffer ++ c)).2.2 with
        | true => exact Or.inl rfl
        | false =>
          refine Or.inr ?_
          show extract (extract (st.buffer ++ c)).2.1 = ([], (extract (st.buffer ++ c)).2.1, false)
          exact extract_leftover_quiescent _ hfat
    have hstep := ih (feed st c) hq2
    have happ := feed_append st c (List.flatten cs)
    rw [show List.flatten (c :: cs) = c ++ List.flatten cs from rfl]
    rw [show feedAll st (c :: cs) = feedAll (feed st c) cs from rfl]
    refine ⟨hstep.1.trans happ.1.symm, hstep.2.1.trans happ.2.1.symm, fun hc => ?_⟩
    have h1 := hstep.2.2 hc
    have hffalse : (feed st (c ++ List.flatten cs)).fatal = false := by
      rw [happ.2.1, ← hstep.2.1]
      exact hc
    have h2 := happ.2.2 hffalse
    exact h1.trans h2.symm

/-- C8: feeding a byte stream to the connection engine reassembly loop in
arbitrary consecutive chunks delivers exactly the same decoded messages,
in the same order, as feeding the whole (joined) stream in a single call. -/
theorem data_received_chunk_invariant (chunks : List (List Nat)) :
    (feedAll initConn chunks).msgs = (feed initConn chunks.flatten).msgs :=
  (feedAll_join chunks initConn (Or.inr (by simp [initConn, extract]))).1

/-! ## Request-id allocation (`Proto.get_id`, `protocol.py:192`) -/

/-- The id-allocation state of one connection: the key set of the
`reply_ids` map (ids with a pending result slot) and the persistent probe
cursor `next_id` (initially 0, parked on the last allocated id). -/
structure IdState where
  pending : List Nat
  next_id : Nat
deriving DecidableEq, Repr

def initIds : IdState := ⟨[], 0⟩

/-- The probe loop `while self.next_id in self.reply_ids: self.next_id =
(self.next_id + 1) & 0xffff`.  The python loop is unbounded; it can only
run forever when every id is pending, so 65536 steps of fuel always
suffice (`probe_isSome`). -/
def probe (pending : List Nat) : Nat → Nat → Option Nat
  | _, 0 => none
  | next, fuel + 1 =>
    if next ∈ pending then probe pending ((next + 1) % 65536) fuel else some next

/-- `Proto.get_id`: probe for a free id starting from the cursor, record a
pending slot for it and leave the cursor parked on it. -/
def get_id (s : IdState) : Option (Nat × IdState) :=
  (probe s.pending s.next_id 65536).map (fun i => (i, ⟨i :: s.pending, i⟩))

/-- `self.reply_ids.pop(reply_id)` in `Proto.handle_normal_message`:
resolving a reply frees its id (the cursor does not move). -/
def removePending (i : Nat) (s : IdState) : IdState :=
  ⟨s.pending.erase i, s.next_id⟩

/-- C4 (counterexample): a reachable allocator state in which `get_id`
does not return the lowest free id.  Allocate 0 and 1, resolve 0 (leaving
only 1 pending and the cursor on 1): the next allocation returns 2 even
though 0 is free and lower. -/
theorem get_id_not_lowest :
    get_id initIds = some (0, ⟨[0], 0⟩) ∧
    get_id ⟨[0], 0⟩ = some (1, ⟨[1, 0], 1⟩) ∧
    removePending 0 ⟨[1, 0], 1⟩ = ⟨[1], 1⟩ ∧
    get_id ⟨[1], 1⟩ = some (2, ⟨[2, 1], 2⟩) ∧
    0 ∉ [1] ∧ (2 : Nat) ≠ 0 := by
  refine ⟨by decide, by decide, by decide, by decide, by decide, by decide⟩

lemma probe_spec (pending : List Nat) (fuel : Nat) : ∀ next i : Nat, next < 65536 →
    probe pending next fuel = some i →
    i ∉ pending ∧ ∃ k, i = (next + k) % 65536 ∧ ∀ d < k, (next + d) % 65536 ∈ pending := by
  induction fuel with
  | zero => intro next i _ h; cases h
  | succ fuel ih =>
    intro next i hnext h
    rw [probe] at h
    by_cases hmem : next ∈ pending
    · rw [if_pos hmem] at h
      have hnext2 : (next + 1) % 65536 < 65536 := Nat.mod_lt _ (by omega)
      obtain ⟨hnot, k, hk, hall⟩ := ih ((next + 1) % 65536) i hnext2 h
      refine ⟨hnot, k + 1, ?_, ?_⟩
      · rw [hk, Nat.mod_add_mod]
        congr 1
        omega
      · intro d hd
        cases d with
        | zero =>
          simpa [Nat.mod_eq_of_lt hnext] using hmem
        | succ d2 =>
          have := hall d2 (by omega)
          rw [Nat.mod_add_mod] at this
          have he : next + 1 + d2 = next + (d2 + 1) := by omega
          rwa [he] at this
    · rw [if_neg hmem] at h
      cases h
      refine ⟨hmem, 0, ?_, by omega⟩
      rw [Nat.add_zero, Nat.mod_eq_of_lt hnext]

lemma probe_isSome (pending : List Nat) (fuel : Nat) : ∀ next : Nat, next < 65536 →
    (∃ d < fuel, (next + d) % 65536 ∉ pending) →
    ∃ i, probe pending next fuel = some i := by
  induction fuel with
  | zero => rintro next _ ⟨d, hd, _⟩; omega
  | succ fuel ih =>
    rintro next hnext ⟨d, hd, hfree⟩
    rw [probe]
    by_cases hmem : next ∈ pending
    · rw [if_pos hmem]
      have hd0 : d ≠ 0 := by
        intro h0
        rw [h0, Nat.add_zero, Nat.mod_eq_of_lt hnext] at hfree
        exact hfree hmem
      refine ih ((next + 1) % 65536) (Nat.mod_lt _ (by omega)) ⟨d - 1, by omega, ?_⟩
      rw [Nat.mod_add_mod]
      have he : next + 1 + (d - 1) = next + d := by omega
      rwa [he]
    · exact ⟨next, by rw [if_neg hmem]⟩

lemma exists_free_slot (pending : List Nat) (next : Nat) (hnext : next < 65536)
    (hnodup : pending.Nodup) (hroom : pending.length < 65536) :
    ∃ d < 65536, (next + d) % 65536 ∉ pending := by
  by_contra hcon
  push_neg at hcon
  have hall : ∀ r, r < 65536 → r ∈ pending := by
    intro r hr
    have hd1 : (r + 65536 - next) % 65536 < 65536 := by omega
    have hd2 : (next + (r + 65536 - next) % 65536) % 65536 = r := by omega
    have := hcon ((r + 65536 - next) % 65536) hd1
    rwa [hd2] at this
  have hsub : Finset.range 65536 ⊆ pending.toFinset := fun r hr =>
    List.mem_toFinset.2 (hall r (Finset.mem_range.1 hr))
  have hcard := Finset.card_le_card hsub
  rw [Finset.card_range, List.toFinset_card_of_nodup hnodup] at hcard
  omega

/-- C4 (amended): `get_id` returns the first id not already pending in the
cyclic probe order starting at the stored cursor `next_id` (not the
globally lowest free id; see `get_id_not_lowest`), wrapping at 2^16; the
returned id is then marked pending and the cursor stays on it. -/
theorem get_id_first_free_from_cursor (s : IdState)
    (hnext : s.next_id < 65536) (hnodup : s.pending.Nodup)
    (hroom : s.pending.length < 65536) :
    ∃ i k, get_id s = some (i, ⟨i :: s.pending, i⟩) ∧
      i = (s.next_id + k) % 65536 ∧ i ∉ s.pending ∧
      ∀ d < k, (s.next_id + d) % 65536 ∈ s.pending := by
  obtain ⟨d, hd, hfree⟩ := exists_free_slot s.pending s.next_id hnext hnodup hroom
  obtain ⟨i, hi⟩ := probe_isSome s.pending 65536 s.next_id hnext ⟨d, hd, hfree⟩
  obtain ⟨hnot, k, hk, hall⟩ := probe_spec s.pending 65536 s.next_id i hnext hi
  exact ⟨i, k, by simp [get_id, hi], hk, hnot, hall⟩

theorem get_id_first_free_from_cursor_witness :
    ((1 : Nat) < 65536 ∧ List.Nodup [1] ∧ List.length [1] < 65536) ∧
    ∃ i k, get_id ⟨[1], 1⟩ = some (i, ⟨i :: [1], i⟩) ∧
      i = (1 + k) % 65536 ∧ i ∉ [1] ∧ ∀ d < k, (1 + d) % 65536 ∈ [1] :=
  ⟨⟨by decide, by decide, by decide⟩,
   get_id_first_free_from_cursor ⟨[1], 1⟩ (by decide) (by decide) (by decide)⟩

/-! ## Connection loss (`Proto.connection_lost`, `protocol.py:157`) -/

/-- `ProtoState` from `protocol.py`. -/
inductive ProtoState where
  | init
  | sent_hello
  | connected
  | disconnected
deriving DecidableEq, Repr

/-- The observable state of one pending-reply future (`asyncio.Future`):
`done()` is true for resolved, failed and cancelled futures. -/
inductive FutState where
  | pending
  | resolved (v : MP)
  | failed_error (v : MP)
  | failed_disconnected
  | cancelled
deriving DecidableEq, Repr

def FutState.done : FutState → Bool
  | .pending => false
  | _ => true

/-- `ProtoMessage` events emitted to the owner. -/
inductive ProtoEvent where
  | connected (client_id : Option MP)
  | message (m : Message)
  | disconnected
deriving DecidableEq, Repr

/-- The slice of `Proto` state that `connection_lost` reads and writes. -/
structure ProtoConn where
  state : ProtoState
  reply_ids : List (Nat × FutState)
deriving DecidableEq, Repr

/-- `Proto.connection_lost`: if not already disconnected, transition to
`disconnected`, call `set_exception(Disconnected())` on every future that
is not yet done, and emit one `disconnected` event to the owner;
otherwise do nothing. -/
def connection_lost (s : ProtoConn) : ProtoConn × List ProtoEvent :=
  if s.state ≠ ProtoState.disconnected then
    (⟨.disconnected,
      s.reply_ids.map (fun p => (p.1, if p.2.done then p.2 else .failed_disconnected))⟩,
     [.disconnected])
  else (s, [])

/-- C6: on transport loss while not already disconnected the engine moves
to the disconnected state, fails every still-unresolved reply slot with a
Disconnected error (slots already done — resolved, failed or cancelled —
are left untouched), and emits the `disconnected` event exactly once (a
second transport-loss callback emits nothing). -/
theorem connection_lost_spec (s : ProtoConn) (h : s.state ≠ ProtoState.disconnected) :
    (connection_lost s).1.state = .disconnected ∧
    (connection_lost s).2 = [.disconnected] ∧
    (∀ i f, (i, f) ∈ s.reply_ids → f.done = false →
      (i, FutState.failed_disconnected) ∈ (connection_lost s).1.reply_ids) ∧
    (∀ i f, (i, f) ∈ s.reply_ids → f.done = true →
      (i, f) ∈ (connection_lost s).1.reply_ids) ∧
    (connection_lost (connection_lost s).1).2 = [] := by
  refine ⟨by simp [connection_lost, h], by simp [connection_lost, h], ?_, ?_, ?_⟩
  · intro i f hmem hdone
    simp only [connection_lost, h, ne_eq, not_false_iff, if_true]
    refine List.mem_map.2 ⟨(i, f), hmem, ?_⟩
    simp [hdone]
  · intro i f hmem hdone
    simp only [connection_lost, h, ne_eq, not_false_iff, if_true]
    refine List.mem_map.2 ⟨(i, f), hmem, ?_⟩
    simp [hdone]
  · simp [connection_lost, h]

theorem connection_lost_spec_witness :
    (ProtoConn.mk .connected [(0, .pending), (1, .cancelled)]).state ≠
      ProtoState.disconnected ∧
    ((connection_lost ⟨.connected, [(0, .pending), (1, .cancelled)]⟩).1.state =
        .disconnected ∧
      (connection_lost ⟨.connected, [(0, .pending), (1, .cancelled)]⟩).2 =
        [.disconnected] ∧
      (∀ i f, (i, f) ∈ [((0 : Nat), FutState.pending), (1, FutState.cancelled)] →
        f.done = false →
        (i, FutState.failed_disconnected) ∈
          (connection_lost ⟨.connected, [(0, .pending), (1, .cancelled)]⟩).1.reply_ids) ∧
      (∀ i f, (i, f) ∈ [((0 : Nat), FutState.pending), (1, FutState.cancelled)] →
        f.done = true →
        (i, f) ∈
          (connection_lost ⟨.connected, [(0, .pending), (1, .cancelled)]⟩).1.reply_ids) ∧
      (connection_lost
          (connection_lost ⟨.connected, [(0, .pending), (1, .cancelled)]⟩).1).2 = []) :=
  ⟨by decide, connection_lost_spec ⟨.connected, [(0, .pending), (1, .cancelled)]⟩ (by decide)⟩

/-! ## Application-message dispatch (`Client.__handle_message`, `client.py:189`) -/

/-- The member names of the `MessageType` enum (`messages.py:8-35`), in
source order. -/
def messageTypeMembers : List String :=
  ["hello", "hello_id", "reply", "reply_state", "ping",
   "action_register", "action_call",
   "prop_register", "prop_get", "prop_set",
   "get", "set",
   "event_register", "event_emit", "event_listen", "event_notify",
   "state_register", "state_changed", "state_unknown", "state_observe"]

/-- Python tuple length (tag plus fields) of a message value, which is what
the sequence patterns of `Client.__handle_message` test first. -/
def Message.tupleLen : Message → Nat
  | .hello_client _ _ => 3
  | .hello_id_client _ _ _ => 4
  | .hello_server => 1
  | .hello_id_server _ => 2
  | .reply _ _ => 3
  | .reply_state _ _ => 3
  | .ping _ => 2
  | .action_register _ _ => 3
  | .action_call _ _ _ => 4
  | .prop_register _ _ => 3
  | .prop_get _ _ => 3
  | .prop_set _ _ _ => 4
  | .get _ _ => 3
  | .set _ _ _ => 4
  | .event_register _ _ => 3
  | .event_emit _ _ _ => 4
  | .event_listen _ _ => 3
  | .event_notify _ _ => 3
  | .state_register _ _ => 3
  | .state_changed_id _ _ _ => 4
  | .state_unknown_id _ _ => 3
  | .state_observe _ _ => 3
  | .state_changed_push _ _ => 3

/-- What one call of `Client.__handle_message` does with an inbound
application message. -/
inductive HandleOutcome where
  /-- `__wrap_call(reply_id, self.actions[path], *args)` is scheduled. -/
  | action_callback (reply_id : Nat) (path : List Nat) (args : MP)
  /-- `self.actions[path]` raises `KeyError` (unregistered action path). -/
  | action_missing (path : List Nat)
  /-- every listener callback for the path is invoked with the payload. -/
  | notify_listens (path : List Nat) (value : MP)
  /-- `__state_update(path, known_unknown)` runs. -/
  | state_update (path : List Nat) (v : StateValue)
  /-- evaluating the pattern `(MessageType.state_set, reply_id, path, value)`
  raises `AttributeError`: `MessageType` has no member `state_set`. -/
  | attribute_error
  /-- the final `case _` raises `Exception("unexpected message: ...")`. -/
  | unexpected (m : Message)
deriving DecidableEq, Repr

/-- `Client.__handle_message` (`client.py:189`), dispatching on the tuple
shape of the message.  After the `action_call`, `event_notify` and
3-tuple `state_changed` cases, the source's next pattern is
`case (MessageType.state_set, reply_id, path, value)`: CPython evaluates
the value pattern `MessageType.state_set` once the subject is known to be
a 4-element sequence, and that attribute lookup raises `AttributeError`
because the enum (`messages.py:8-35`) has no such member; subjects of any
other length skip the case and reach `case _`, which raises. -/
def handle_message (actions : List (List Nat)) (m : Message) : HandleOutcome :=
  match m with
  | .action_call id p args =>
    if p ∈ actions then .action_callback id p args else .action_missing p
  | .event_notify p v => .notify_listens p v
  | .state_changed_push p v => .state_update p v
  | m => if m.tupleLen = 4 then .attribute_error else .unexpected m

/-- C2: the claimed `state_set` handling is unreachable in the code as
written: the `MessageType` enum has no `state_set` member, so the match
case referring to it raises `AttributeError` for every remaining 4-tuple
message — in particular a server-relayed `set` or `prop_set` asking this
client to accept a new value crashes the dispatch instead of invoking the
set-callback or replying with the "not implemented" error. -/
theorem state_set_dispatch_crashes :
    "state_set" ∉ messageTypeMembers ∧
    (∀ actions id p v, handle_message actions (.set id p v) = .attribute_error) ∧
    (∀ actions id p v, handle_message actions (.prop_set id p v) = .attribute_error) := by
  refine ⟨by decide, fun actions id p v => rfl, fun actions id p v => rfl⟩

/-! ## Registered-state updates (`Client.state_changed` / `Client.state_unknown`,
`client.py:372-394`) -/

/-- A registered-state cache entry value: the `Unknown` sentinel or a
concrete payload. -/
inductive CVal where
  | unknown
  | val (v : MP)
deriving DecidableEq, Repr

/-- Python dict assignment `d[k] = v` on an association list. -/
def setKey (k : List Nat) (v : CVal) : List (List Nat × CVal) → List (List Nat × CVal)
  | [] => [(k, v)]
  | (k2, v2) :: rest => if k2 = k then (k, v) :: rest else (k2, v2) :: setKey k v rest

/-- The slice of `Client` state read and written by `state_changed` and
`state_unknown`: the registered-state cache, the connected flag and the
id allocator of the current protocol instance. -/
structure ClientSt where
  registered_state_values : List (List Nat × CVal)
  connected : Bool
  ids : IdState
deriving DecidableEq, Repr

inductive PyExc where
  | disconnected
deriving DecidableEq, Repr

/-- Result of one public state-update call: the client state after the
call (cache updates happen even when the call then raises), the wire
messages sent, and the exception raised, if any. -/
structure OpResult where
  state : ClientSt
  sent : List Message
  exc : Option PyExc
deriving DecidableEq, Repr

/-- `Client.state_unknown` (`client.py:387`): make the path absolute
(`__make_absolute` wraps the external `PurePosixPath` join, taken here as
the parameter `makeAbs`), cache `Unknown`, then `__check_connected` (raise
`Disconnected` if not connected), then allocate an id and send a
`state_unknown` message.  A `none` from `get_id` models the unbounded
python probe loop spinning with all 2^16 ids pending (unreachable from
reachable states; see `probe_isSome`). -/
def state_unknown (makeAbs : List Nat → List Nat) (cl : ClientSt)
    (path : List Nat) : OpResult :=
  let p := makeAbs path
  let cl1 : ClientSt :=
    { cl with registered_state_values := setKey p .unknown cl.registered_state_values }
  if cl1.connected = false then ⟨cl1, [], some .disconnected⟩
  else
    match get_id cl1.ids with
    | none => ⟨cl1, [], none⟩
    | some (i, ids2) => ⟨{ cl1 with ids := ids2 }, [.state_unknown_id i p], none⟩

/-- `Client.state_changed` (`client.py:372`): `if value is Unknown: return
await self.state_unknown(path)`, otherwise cache the value, check
connectivity and send a `state_changed` message. -/
def state_changed (makeAbs : List Nat → List Nat) (cl : ClientSt)
    (path : List Nat) (value : CVal) : OpResult :=
  match value with
  | .unknown => state_unknown makeAbs cl path
  | .val x =>
    let p := makeAbs path
    let cl1 : ClientSt :=
      { cl with registered_state_values := setKey p (.val x) cl.registered_state_values }
    if cl1.connected = false then ⟨cl1, [], some .disconnected⟩
    else
      match get_id cl1.ids with
      | none => ⟨cl1, [], none⟩
      | some (i, ids2) => ⟨{ cl1 with ids := ids2 }, [.state_changed_id i p x], none⟩

/-- C10: `state_changed(path, Unknown)` is the very same operation as
`state_unknown(path)`: both cache Unknown under the absolute path before
the connectivity check (so the cache is updated even when `Disconnected`
is then raised with nothing sent), and when connected both send a
`state_unknown` wire message — a `state_changed` wire message never
carries Unknown. -/
theorem state_changed_unknown_eq_state_unknown (makeAbs : List Nat → List Nat)
    (cl : ClientSt) (path : List Nat) :
    state_changed makeAbs cl path .unknown = state_unknown makeAbs cl path ∧
    (state_unknown makeAbs cl path).state.registered_state_values =
      setKey (makeAbs path) .unknown cl.registered_state_values ∧
    (cl.connected = false →
      (state_unknown makeAbs cl path).exc = some .disconnected ∧
      (state_unknown makeAbs cl path).sent = []) ∧
    (∀ i ids2, cl.connected = true → get_id cl.ids = some (i, ids2) →
      (state_unknown makeAbs cl path).sent = [.state_unknown_id i (makeAbs path)] ∧
      (state_unknown makeAbs cl path).exc = none) := by
  refine ⟨rfl, ?_, ?_, ?_⟩
  · unfold state_unknown
    by_cases hc : cl.connected = false
    · simp [hc]
    · simp only [hc, if_false]
      cases hg : get_id cl.ids with
      | none => simp
      | some r => cases r with | mk i ids2 => simp
  · intro hc
    unfold state_unknown
    simp [hc]
  · intro i ids2 hc hg
    unfold state_unknown
    simp [hc, hg]

theorem state_changed_unknown_eq_state_unknown_witness :
    state_changed id ⟨[], true, initIds⟩ [47] .unknown = state_unknown id ⟨[], true, initIds⟩ [47] ∧
    (state_unknown id ⟨[], true, initIds⟩ [47]).sent = [.state_unknown_id 0 [47]] ∧
    (state_unknown id ⟨[], true, initIds⟩ [47]).exc = none :=
  ⟨(state_changed_unknown_eq_state_unknown id ⟨[], true, initIds⟩ [47]).1,
   ((state_changed_unknown_eq_state_unknown id ⟨[], true, initIds⟩ [47]).2.2.2
      0 ⟨[0], 0⟩ rfl (by decide)).1,
   ((state_changed_unknown_eq_state_unknown id ⟨[], true, initIds⟩ [47]).2.2.2
      0 ⟨[0], 0⟩ rfl (by decide)).2⟩

/-! ## Reconnect resynchronization (`Client.__send_registrations`,
`client.py:149-162`) -/

/-- The message types ever passed to `Client.__do_registration` — the only
way closures enter the registration replay list. -/
inductive RegKind where
  | action_register
  | prop_register
  | event_register
  | event_listen
  | state_register
deriving DecidableEq, Repr

def RegKind.toMsg : RegKind → Nat → List Nat → Message
  | .action_register, i, p => .action_register i p
  | .prop_register, i, p => .prop_register i p
  | .event_register, i, p => .event_register i p
  | .event_listen, i, p => .event_listen i p
  | .state_register, i, p => .state_register i p

/-- One `get_id` / `send_message` / `await future` round trip (the pattern
of every step in `__send_registrations`): the reply that resolves the
awaited future frees its id (`Proto.handle_normal_message` pops it). -/
def sendOne (ids : IdState) (mk : Nat → Message) : List Message × IdState :=
  match get_id ids with
  | none => ([], ids)
  | some (i, ids2) => ([mk i], removePending i ids2)

/-- Sequentially perform a list of such round trips, threading the
allocator. -/
def sendSeq (ids : IdState) : List (Nat → Message) → List Message × IdState
  | [] => ([], ids)
  | mk :: rest =>
    let r1 := sendOne ids mk
    let r2 := sendSeq r1.2 rest
    (r1.1 ++ r2.1, r2.2)

/-- The slice of `Client` state that `__send_registrations` reads: the
replay list, the registered-state cache, the observed paths and the fresh
connection's id allocator. -/
structure RegClient where
  registrations : List (RegKind × List Nat)
  registered_state_values : List (List Nat × CVal)
  observed_paths : List (List Nat)
  ids : IdState
deriving Repr

/-- `Client.__send_registrations`: replay every registration closure in
list order, then resend every registered state whose cached value is not
`Unknown` as a `state_changed` message, then re-observe every observed
path — each step awaiting its reply before the next starts. -/
def send_registrations (cl : RegClient) : List Message × IdState :=
  sendSeq cl.ids
    (cl.registrations.map (fun r => fun i => r.1.toMsg i r.2) ++
     cl.registered_state_values.filterMap (fun e =>
       match e.2 with
       | .unknown => none
       | .val x => some (fun i => Message.state_changed_id i e.1 x)) ++
     cl.observed_paths.map (fun p => fun i => Message.state_observe i p))

def Message.isRegistrationMsg : Message → Bool
  | .action_register _ _ => true
  | .prop_register _ _ => true
  | .event_register _ _ => true
  | .event_listen _ _ => true
  | .state_register _ _ => true
  | _ => false

def Message.isStateResend : Message → Bool
  | .state_changed_id _ _ _ => true
  | _ => false

def Message.isObserveMsg : Message → Bool
  | .state_observe _ _ => true
  | _ => false

/-- How a resent state entry must look on the wire. -/
def matchesResend : List Nat × CVal → Message → Prop
  | (p, .val x), m => ∃ i, m = .state_changed_id i p x
  | (_, .unknown), _ => False

lemma sendSeq_pending_nil (n : Nat) (mks : List (Nat → Message)) :
    sendSeq ⟨[], n⟩ mks = (mks.map (fun mk => mk n), ⟨[], n⟩) := by
  induction mks with
  | nil => rfl
  | cons mk rest ih =>
    have h1 : sendOne ⟨[], n⟩ mk = ([mk n], ⟨[], n⟩) := by
      simp [sendOne, get_id, probe, removePending]
    simp [sendSeq, h1, ih]

lemma forall₂_map_self {α β : Type} (l : List α) (g : α → β) (R : α → β → Prop)
    (h : ∀ a ∈ l, R a (g a)) : List.Forall₂ R l (l.map g) := by
  induction l with
  | nil => exact List.Forall₂.nil
  | cons a rest ih =>
    exact List.Forall₂.cons (h a (by simp)) (ih (fun x hx => h x (by simp [hx])))

/-- The entry payload a non-Unknown cache entry carries (junk on
`unknown`, which the filtered list never contains). -/
def resendMsgOf (n : Nat) (e : List Nat × CVal) : Message :=
  match e.2 with
  | .val x => .state_changed_id n e.1 x
  | .unknown => .state_observe n e.1

lemma filterMap_resend_eq (n : Nat) (l : List (List Nat × CVal)) :
    (l.filterMap (fun e =>
      match e.2 with
      | CVal.unknown => none
      | CVal.val x => some (fun i => Message.state_changed_id i e.1 x))).map
        (fun mk => mk n) =
    (l.filter (fun e => e.2 ≠ CVal.unknown)).map (resendMsgOf n) := by
  induction l with
  | nil => rfl
  | cons e rest ih =>
    cases e with
    | mk p v =>
      cases v with
      | unknown => simpa [List.filterMap, List.filter, resendMsgOf] using ih
      | val x => simpa [List.filterMap, List.filter, resendMsgOf] using ih

/-- C3: on every (re)connect, the resynchronization trace is the
concatenation of three phases in this order — first one message per
replay-list entry, in original registration order; then one
`state_changed` per registered state whose cached value is not Unknown;
then one `state_observe` per observed path — with no interleaving. -/
theorem send_registrations_order (cl : RegClient) (hids : cl.ids = ⟨[], cl.ids.next_id⟩) :
    ∃ t1 t2 t3, (send_registrations cl).1 = t1 ++ t2 ++ t3 ∧
      List.Forall₂ (fun (r : RegKind × List Nat) m => ∃ i, m = r.1.toMsg i r.2)
        cl.registrations t1 ∧
      List.Forall₂ matchesResend
        (cl.registered_state_values.filter (fun e => e.2 ≠ CVal.unknown)) t2 ∧
      List.Forall₂ (fun p m => ∃ i, m = Message.state_observe i p)
        cl.observed_paths t3 ∧
      (∀ m ∈ t1, m.isRegistrationMsg = true) ∧
      (∀ m ∈ t2, m.isStateResend = true) ∧
      (∀ m ∈ t3, m.isObserveMsg = true) := by
  refine ⟨cl.registrations.map (fun r => r.1.toMsg cl.ids.next_id r.2),
          (cl.registered_state_values.filter (fun e => e.2 ≠ CVal.unknown)).map
            (resendMsgOf cl.ids.next_id),
          cl.observed_paths.map (fun p => Message.state_observe cl.ids.next_id p),
          ?_, ?_, ?_, ?_, ?_, ?_, ?_⟩
  · rw [send_registrations, hids, sendSeq_pending_nil]
    simp only [List.map_append, filterMap_resend_eq, List.map_map]
    rfl
  · exact forall₂_map_self _ _ _ (fun r _ => ⟨cl.ids.next_id, rfl⟩)
  · refine forall₂_map_self _ _ _ (fun e he => ?_)
    have hne : e.2 ≠ CVal.unknown := by
      have := List.of_mem_filter he
      simpa using this
    cases e with
    | mk p v =>
      cases v with
      | unknown => exact absurd rfl hne
      | val x => exact ⟨cl.ids.next_id, rfl⟩
  · exact forall₂_map_self _ _ _ (fun p _ => ⟨cl.ids.next_id, rfl⟩)
  · intro m hm
    obtain ⟨r, _, hr⟩ := List.mem_map.1 hm
    cases hr
    cases r with
    | mk k p => cases k <;> rfl
  · intro m hm
    obtain ⟨e, he, hr⟩ := List.mem_map.1 hm
    cases hr
    have hne : e.2 ≠ CVal.unknown := by
      have := List.of_mem_filter he
      simpa using this
    cases e with
    | mk p v =>
      cases v with
      | unknown => exact absurd rfl hne
      | val x => rfl
  · intro m hm
    obtain ⟨p, _, hr⟩ := List.mem_map.1 hm
    cases hr
    rfl

theorem send_registrations_order_witness :
    ∃ t1 t2 t3,
      (send_registrations ⟨[(.action_register, [97])],
          [([98], .val ⟨7, by decide⟩), ([99], .unknown)], [[100]], initIds⟩).1 =
        t1 ++ t2 ++ t3 ∧
      List.Forall₂ (fun (r : RegKind × List Nat) m => ∃ i, m = r.1.toMsg i r.2)
        [(.action_register, [97])] t1 ∧
      List.Forall₂ matchesResend
        ([([98], CVal.val ⟨7, by decide⟩), ([99], CVal.unknown)].filter
          (fun e => e.2 ≠ CVal.unknown)) t2 ∧
      List.Forall₂ (fun p m => ∃ i, m = Message.state_observe i p) [[100]] t3 ∧
      (∀ m ∈ t1, m.isRegistrationMsg = true) ∧
      (∀ m ∈ t2, m.isStateResend = true) ∧
      (∀ m ∈ t3, m.isObserveMsg = true) :=
  send_registrations_order ⟨[(.action_register, [97])],
    [([98], .val ⟨7, by decide⟩), ([99], .unknown)], [[100]], initIds⟩ rfl

/-! ## Observed-state reset on disconnect
(`Client.__handle_connection_events`, `client.py:175-187`, and
`Client.__state_update`, `client.py:427-441`) -/

/-- One observed-state slot: a still-pending observe future, or a concrete
value (which may itself be the Unknown sentinel). -/
inductive Slot where
  | future
  | val (v : CVal)
deriving DecidableEq, Repr

/-- `self.observes[path]` — a `defaultdict(list)` of subscriber callbacks
(tokens). -/
def lookupObserves (observes : List (List Nat × List Nat)) (p : List Nat) : List Nat :=
  match observes.find? (fun e => e.1 = p) with
  | some e => e.2
  | none => []

/-- The disconnect loop over `observed_state_values`: entries whose slot
is still a future are skipped; for every entry holding a concrete value,
`__state_update(state, StateValueType.unknown)` stores Unknown and
invokes every subscriber callback for that path with Unknown.  Returns
the updated map and the invocation list `(path, callback, value)` in
order. -/
def disconnect_observed (observes : List (List Nat × List Nat)) :
    List (List Nat × Slot) → List (List Nat × Slot) × List (List Nat × Nat × CVal)
  | [] => ([], [])
  | (p, Slot.future) :: rest =>
    let r := disconnect_observed observes rest
    ((p, Slot.future) :: r.1, r.2)
  | (p, Slot.val _) :: rest =>
    let r := disconnect_observed observes rest
    ((p, Slot.val CVal.unknown) :: r.1,
     (lookupObserves observes p).map (fun c => (p, c, CVal.unknown)) ++ r.2)

lemma disconnect_observed_calls_paths (observes : List (List Nat × List Nat))
    (entries : List (List Nat × Slot)) :
    ∀ x ∈ (disconnect_observed observes entries).2, x.1 ∈ entries.map Prod.fst := by
  induction entries with
  | nil => intro x hx; cases hx
  | cons e rest ih =>
    cases e with
    | mk p s =>
      cases s with
      | future =>
        intro x hx
        simp only [disconnect_observed] at hx
        exact List.mem_cons_of_mem _ (ih x hx)
      | val v =>
        intro x hx
        simp only [disconnect_observed, List.mem_append] at hx
        cases hx with
        | inl h =>
          obtain ⟨c, _, hc⟩ := List.mem_map.1 h
          cases hc
          simp
        | inr h => exact List.mem_cons_of_mem _ (ih x h)

lemma filter_calls_map_self (q : List Nat) (l : List Nat) :
    (l.map (fun c => (q, c, CVal.unknown))).filter (fun x => x.1 = q) =
      l.map (fun c => (q, c, CVal.unknown)) := by
  apply List.filter_eq_self.2
  intro x hx
  obtain ⟨c, _, hc⟩ := List.mem_map.1 hx
  cases hc
  simp

lemma filter_calls_map_other (p q : List Nat) (l : List Nat) (h : p ≠ q) :
    (l.map (fun c => (q, c, CVal.unknown))).filter (fun x => x.1 = p) = [] := by
  apply List.filter_eq_nil_iff.2
  intro x hx
  obtain ⟨c, _, hc⟩ := List.mem_map.1 hx
  cases hc
  simp only [decide_eq_true_eq]
  exact fun hqp => h hqp.symm

lemma filter_calls_tail (observes : List (List Nat × List Nat))
    (rest : List (List Nat × Slot)) (q : List Nat) (hq : q ∉ rest.map Prod.fst) :
    (disconnect_observed observes rest).2.filter (fun x => x.1 = q) = [] := by
  apply List.filter_eq_nil_iff.2
  intro x hx
  have hmem := disconnect_observed_calls_paths observes rest x hx
  simp only [decide_eq_true_eq]
  intro hxq
  rw [hxq] at hmem
  exact hq hmem

/-- C7: when the client handles a `disconnected` event, every
observed-state entry holding a concrete value is forced to Unknown and
each of its subscriber callbacks is invoked exactly once with Unknown,
while every entry whose slot is still a pending future is left untouched
and triggers no invocation. -/
theorem disconnect_observed_spec (observes : List (List Nat × List Nat))
    (entries : List (List Nat × Slot))
    (hnodup : (entries.map Prod.fst).Nodup) :
    (∀ p, (p, Slot.future) ∈ entries →
      (p, Slot.future) ∈ (disconnect_observed observes entries).1 ∧
      (disconnect_observed observes entries).2.filter (fun x => x.1 = p) = []) ∧
    (∀ p v, (p, Slot.val v) ∈ entries →
      (p, Slot.val CVal.unknown) ∈ (disconnect_observed observes entries).1 ∧
      (disconnect_observed observes entries).2.filter (fun x => x.1 = p) =
        (lookupObserves observes p).map (fun c => (p, c, CVal.unknown))) := by
  induction entries with
  | nil =>
    exact ⟨fun p hp => absurd hp (List.not_mem_nil _),
           fun p v hp => absurd hp (List.not_mem_nil _)⟩
  | cons e rest ih =>
    have hnd : (rest.map Prod.fst).Nodup := (List.nodup_cons.1 hnodup).2
    have hhead : e.1 ∉ rest.map Prod.fst := (List.nodup_cons.1 hnodup).1
    obtain ⟨ihf, ihv⟩ := ih hnd
    cases e with
    | mk q s =>
      have hhead2 : q ∉ rest.map Prod.fst := hhead
      constructor
      · intro p hp
        rcases List.mem_cons.1 hp with heq | hmem
        · have hq : q = p ∧ s = Slot.future := by cases heq; exact ⟨rfl, rfl⟩
          obtain ⟨rfl, rfl⟩ := hq
          refine ⟨by simp [disconnect_observed], ?_⟩
          rw [show (disconnect_observed observes ((q, Slot.future) :: rest)).2 =
                (disconnect_observed observes rest).2 by simp [disconnect_observed]]
          exact filter_calls_tail observes rest q hhead2
        · have hpq : p ≠ q := by
            intro hpq
            apply hhead2
            rw [← hpq]
            exact List.mem_map_of_mem Prod.fst hmem
          obtain ⟨h1, h2⟩ := ihf p hmem
          cases s with
          | future =>
            refine ⟨by simp [disconnect_observed, h1], ?_⟩
            simpa [disconnect_observed] using h2
          | val w =>
            refine ⟨by simp [disconnect_observed, h1], ?_⟩
            simp only [disconnect_observed, List.filter_append]
            rw [filter_calls_map_other p q _ hpq, h2, List.nil_append]
      · intro p v hp
        rcases List.mem_cons.1 hp with heq | hmem
        · have hq : q = p ∧ s = Slot.val v := by cases heq; exact ⟨rfl, rfl⟩
          obtain ⟨rfl, rfl⟩ := hq
          refine ⟨by simp [disconnect_observed], ?_⟩
          simp only [disconnect_observed, List.filter_append]
          rw [filter_calls_map_self q, filter_calls_tail observes rest q hhead2,
            List.append_nil]
        · have hpq : p ≠ q := by
            intro hpq
            apply hhead2
            rw [← hpq]
            exact List.mem_map_of_mem Prod.fst hmem
          obtain ⟨h1, h2⟩ := ihv p v hmem
          cases s with
          | future =>
            refine ⟨by simp [disconnect_observed, h1], ?_⟩
            simpa [disconnect_observed] using h2
          | val w =>
            refine ⟨by simp [disconnect_observed, h1], ?_⟩
            simp only [disconnect_observed, List.filter_append]
            rw [filter_calls_map_other p q _ hpq, h2, List.nil_append]

theorem disconnect_observed_spec_witness :
    ((([([1], Slot.val (CVal.val ⟨5, by decide⟩)), ([2], Slot.future)] :
        List (List Nat × Slot)).map Prod.fst).Nodup) ∧
    ((∀ p, (p, Slot.future) ∈
        [([1], Slot.val (CVal.val ⟨5, by decide⟩)), ([2], Slot.future)] →
      (p, Slot.future) ∈ (disconnect_observed [([1], [10, 11]), ([2], [12])]
        [([1], Slot.val (CVal.val ⟨5, by decide⟩)), ([2], Slot.future)]).1 ∧
      (disconnect_observed [([1], [10, 11]), ([2], [12])]
        [([1], Slot.val (CVal.val ⟨5, by decide⟩)), ([2], Slot.future)]).2.filter
          (fun x => x.1 = p) = []) ∧
    (∀ p v, (p, Slot.val v) ∈
        [([1], Slot.val (CVal.val ⟨5, by decide⟩)), ([2], Slot.future)] →
      (p, Slot.val CVal.unknown) ∈ (disconnect_observed [([1], [10, 11]), ([2], [12])]
        [([1], Slot.val (CVal.val ⟨5, by decide⟩)), ([2], Slot.future)]).1 ∧
      (disconnect_observed [([1], [10, 11]), ([2], [12])]
        [([1], Slot.val (CVal.val ⟨5, by decide⟩)), ([2], Slot.future)]).2.filter
          (fun x => x.1 = p) =
        (lookupObserves [([1], [10, 11]), ([2], [12])] p).map
          (fun c => (p, c, CVal.unknown)))) :=
  ⟨by decide,
   disconnect_observed_spec [([1], [10, 11]), ([2], [12])]
     [([1], Slot.val (CVal.val ⟨5, by decide⟩)), ([2], Slot.future)] (by decide)⟩

/-! ## Serial task scheduler (`_RunSeriallyImpl._run_loop`, `utils.py:150-194`) -/

/-- The `only_latest` skip loop `while not self.queue.empty(): task =
self.queue.get_nowait()`: starting from a task already in hand, replace
it with each queued task in turn, ending with the most recently
submitted one; everything else is discarded. -/
def skim {τ : Type} (t : τ) : List τ → τ
  | [] => t
  | q :: rest => skim q rest

/-- The task used after a failed run when `retry` and `only_latest` are
both set (`utils.py:160-166` plus the skip loop): `asyncio.wait_for(self
.queue.get(), timeout)` substitutes a newly arrived task for the failed
one (on timeout the failed task is kept), and then the skip loop
discards all but the latest queued task. -/
def chooseAfterFailedWait {τ : Type} (last : τ) (arrival : Option τ)
    (queue : List τ) : τ :=
  skim (arrival.getD last) queue

/-- The failure-free path of `_run_loop` (every task succeeds and
`assume_failed` is unset): dequeue the queue head, with `only_latest`
discard all but the most recently submitted task, run the choice, then
loop.  `arrivals` lists the tasks submitted while each executed task
runs; an empty queue with no pending submissions blocks forever (the
trace ends).  Returns the tasks actually executed, in order. -/
def runLoop {τ : Type} (onlyLatest : Bool) : List τ → List (List τ) → List τ
  | [], _ => []
  | t :: rest, arrivals =>
    if onlyLatest then
      skim t rest :: runLoop onlyLatest (arrivals.headD []) arrivals.tail
    else
      t :: runLoop onlyLatest (rest ++ arrivals.headD []) arrivals.tail
termination_by q a => q.length + (a.map List.length).sum + a.length
decreasing_by
  all_goals cases arrivals <;> (simp; try omega)

lemma skim_getLast {τ : Type} (q : List τ) : ∀ (t : τ) (hq : q ≠ []),
    skim t q = q.getLast hq := by
  induction q with
  | nil => exact fun t hq => absurd rfl hq
  | cons x rest ih =>
    intro t hq
    cases rest with
    | nil => rfl
    | cons y rest2 =>
      rw [show skim t (x :: y :: rest2) = skim x (y :: rest2) from rfl]
      rw [ih x (by simp)]
      rw [List.getLast_cons (by simp : (y :: rest2) ≠ [])]

/-- C9: with `only_latest` set, submitting tasks A, B, C in that order
while A runs executes A and then C only — B is discarded when the next
task is chosen — and the discard-all-but-latest rule is the one applied
both on a normal dequeue and to the task substituted in during a retry
wait. -/
theorem run_serially_only_latest (a b c : Nat) (hba : b ≠ a) (hbc : b ≠ c) :
    runLoop true [a] [[b, c]] = [a, c] ∧ b ∉ runLoop true [a] [[b, c]] ∧
    (∀ (t : Nat) (q : List Nat) (hq : q ≠ []), skim t q = q.getLast hq) ∧
    (∀ (last : Nat) (arr : Option Nat) (q : List Nat) (hq : q ≠ []),
      chooseAfterFailedWait last arr q = q.getLast hq) := by
  have h : runLoop true [a] [[b, c]] = [a, c] := by
    simp [runLoop, skim]
  refine ⟨h, ?_, fun t q hq => skim_getLast q t hq,
    fun last arr q hq => skim_getLast q (arr.getD last) hq⟩
  rw [h]
  simp [hba, hbc]

theorem run_serially_only_latest_witness :
    (1 : Nat) ≠ 0 ∧ (1 : Nat) ≠ 2 ∧
    (runLoop true [0] [[1, 2]] = [0, 2] ∧ (1 : Nat) ∉ runLoop true [0] [[1, 2]] ∧
      (∀ (t : Nat) (q : List Nat) (hq : q ≠ []), skim t q = q.getLast hq) ∧
      (∀ (last : Nat) (arr : Option Nat) (q : List Nat) (hq : q ≠ []),
        chooseAfterFailedWait last arr q = q.getLast hq)) :=
  ⟨by decide, by decide, run_serially_only_latest 0 1 2 (by decide) (by decide)⟩

end Eshet
